import Mathlib

/-!
# FontSnip — Glyph Fingerprinting & Matching Engine, shallow embedding

Shallow embedding in Lean 4 of the core of the FontSnip repository:

* `src/fontsnip/matching/feature_extractor.py` — the online feature
  computation `extract_features` applied to OCR crops (7 features);
* `scripts/build_font_database.py` — the offline feature computation
  `extract_features` and the per-font aggregation used by the database
  builder;
* `src/fontsnip/matching/font_matcher.py` — `FontMatcher._cosine_similarity`
  and `FontMatcher.find_best_matches`.

Python/NumPy floating point arithmetic is modelled by exact real (`ℝ`)
arithmetic; the offline builder path only performs rational operations and is
modelled over `ℚ`, fully executable.  Rasters are grids of `uint8` pixel
values; contours (produced externally by `cv2.findContours`) are passed to the
embedded functions as explicit inputs carrying their point list and their raw
`cv2` hierarchy parent index (`-1` for a root).
-/

namespace FontSnip

/-- A binarized single-channel image: a list of rows of `uint8` pixel values
(`0` background, `255` foreground after binarization, but any non-zero value
counts as foreground, as in the source). A NumPy 2-D array has uniform row
length; `w` reads the first row, as `char_image.shape` does. -/
structure Raster where
  rows : List (List ℕ)
deriving DecidableEq

/-- `h` of `h, w = char_image.shape`. -/
def Raster.h (r : Raster) : ℕ := r.rows.length

/-- `w` of `h, w = char_image.shape`. -/
def Raster.w (r : Raster) : ℕ := (r.rows.headD []).length

/-- `char_image.size`: the number of elements of the array. -/
def Raster.size (r : Raster) : ℕ := (r.rows.map List.length).sum

/-- `cv2.countNonZero(char_image)`: number of non-zero pixels. -/
def Raster.countNonZero (r : Raster) : ℕ :=
  (r.rows.map (fun row => row.countP (fun v => v ≠ 0))).sum

/-- Raster moment `m00` of `cv2.moments(char_image)`: sum of pixel values. -/
def Raster.m00 (r : Raster) : ℕ := (r.rows.map List.sum).sum

/-- Raster moment `m10` of `cv2.moments(char_image)`: sum of `x * value`
(`x` = column index). -/
def Raster.m10 (r : Raster) : ℕ :=
  (r.rows.map (fun row => (row.enum.map (fun p => p.1 * p.2)).sum)).sum

/-- Raster moment `m01` of `cv2.moments(char_image)`: sum of `y * value`
(`y` = row index). -/
def Raster.m01 (r : Raster) : ℕ :=
  ((r.rows.enum.map (fun p => p.1 * p.2.sum))).sum

/-- One contour as returned by `cv2.findContours` with hierarchy: its point
list and the fourth hierarchy entry `hierarchy[0][i][3]`, the index of its
parent contour, `-1` when it has no parent. -/
structure Contour where
  points : List (ℤ × ℤ)
  parent : ℤ
deriving DecidableEq

/-- The `(contours, hierarchy)` pair returned by `cv2.findContours`, with each
contour paired with its parent index.  `cv2` returns `hierarchy = None`
exactly when the contour list is empty. -/
abbrev Forest := List Contour

/-- The cyclic edge list of a closed polygon: each point paired with its
successor (the last point paired with the first). -/
def closedEdges (ps : List (ℤ × ℤ)) : List ((ℤ × ℤ) × (ℤ × ℤ)) :=
  ps.zip (ps.rotate 1)

/-- `cv2.arcLength(contour, True)`: total Euclidean length of the closed
polyline through the contour points. -/
noncomputable def arcLength (ps : List (ℤ × ℤ)) : ℝ :=
  ((closedEdges ps).map (fun e =>
    Real.sqrt (((e.1.1 - e.2.1 : ℤ) : ℝ) ^ 2 + ((e.1.2 - e.2.2 : ℤ) : ℝ) ^ 2))).sum

/-- Twice the signed (shoelace) area of the closed polygon through the
contour points. -/
def shoelace (ps : List (ℤ × ℤ)) : ℤ :=
  ((closedEdges ps).map (fun e => e.1.1 * e.2.2 - e.2.1 * e.1.2)).sum

/-- `cv2.contourArea(contour)`: absolute value of the shoelace area. -/
def contourArea (ps : List (ℤ × ℤ)) : ℚ :=
  |(shoelace ps : ℚ)| / 2

/-- A Python/NumPy float value: either a finite real or one of the IEEE
non-finite values (`nan`, `+inf`, `-inf`).  The feature extractor's final
sanitization step (`feature_vector[np.isnan(...)] = 0.0`,
`feature_vector[np.isinf(...)] = 0.0`) is a genuine operation on this type. -/
inductive EF where
  | fin : ℝ → EF
  | nan : EF
  | pinf : EF
  | ninf : EF

/-- Lines 125–126 of `feature_extractor.py`, acting on one component: a NaN
component is set to `0.0`, then an infinite component is set to `0.0`; finite
components pass through unchanged. -/
def sanitize (x : EF) : EF :=
  match x with
  | EF.fin r => EF.fin r
  | _ => EF.fin 0

/-- `FEATURE_VECTOR_SIZE` from `feature_extractor.py`. -/
def FEATURE_VECTOR_SIZE : ℕ := 7

/-- `np.zeros(FEATURE_VECTOR_SIZE, dtype=np.float32)`. -/
def zeroVector : List EF := List.replicate FEATURE_VECTOR_SIZE (EF.fin 0)

/-- `extract_features` of `src/fontsnip/matching/feature_extractor.py`
(the online path, also documented as the canonical pipeline).

The input is `Option Raster` (`none` models `char_image is None`; a `Raster`
always has `ndim == 2`).  `forest` is the `(contours, hierarchy)` result of
`cv2.findContours` on the zero-padded image, supplied as an input; padding
translates contour coordinates but the extractor only uses
translation-invariant contour quantities (parent links, perimeters, areas). -/
noncomputable def extract_features (img? : Option Raster) (forest : Forest) :
    List EF :=
  match img? with
  | none => zeroVector
  | some img =>
    -- `if char_image is None or char_image.ndim != 2 or char_image.size == 0`
    if img.size = 0 then zeroVector
    -- `h, w = char_image.shape; if h == 0 or w == 0`
    else if img.h = 0 ∨ img.w = 0 then zeroVector
    else
      let h : ℝ := img.h
      let w : ℝ := img.w
      -- `aspect_ratio = w / h`
      let aspect_ratio : ℝ := w / h
      -- `total_pixels = h * w`
      let total_pixels : ℝ := (img.h * img.w : ℕ)
      -- `white_pixels = cv2.countNonZero(char_image)`
      let white_pixels : ℝ := img.countNonZero
      -- `pixel_density = white_pixels / total_pixels if total_pixels > 0 else 0.0`
      let pixel_density : ℝ := if 0 < total_pixels then white_pixels / total_pixels else 0
      -- `moments = cv2.moments(char_image)`; defaults 0.0, set when `m00 != 0`
      let m00 : ℝ := img.m00
      let norm_centroid_x : ℝ := if m00 ≠ 0 then ((img.m10 : ℝ) / m00) / w else 0
      let norm_centroid_y : ℝ := if m00 ≠ 0 then ((img.m01 : ℝ) / m00) / h else 0
      -- `if hierarchy is not None and len(hierarchy) > 0:` — hierarchy is
      -- `None` exactly when no contour was found.
      -- `num_holes`: contours whose parent index is not -1
      let num_holes : ℕ :=
        if forest.isEmpty then 0 else forest.countP (fun c => c.parent ≠ -1)
      -- `total_perimeter`/`total_area`: summed over external contours only
      let total_perimeter : ℝ :=
        if forest.isEmpty then 0
        else ((forest.filter (fun c => c.parent = -1)).map
          (fun c => arcLength c.points)).sum
      let total_area : ℝ :=
        if forest.isEmpty then 0
        else ((forest.filter (fun c => c.parent = -1)).map
          (fun c => (contourArea c.points : ℝ))).sum
      -- `diagonal = np.sqrt(h**2 + w**2)`
      let diagonal : ℝ := Real.sqrt (h ^ 2 + w ^ 2)
      let norm_perimeter : ℝ := if 0 < diagonal then total_perimeter / diagonal else 0
      let norm_area : ℝ := if 0 < total_pixels then total_area / total_pixels else 0
      -- assembly (lines 114–122) followed by sanitization (lines 125–126)
      ([EF.fin aspect_ratio,
        EF.fin pixel_density,
        EF.fin norm_centroid_x,
        EF.fin norm_centroid_y,
        EF.fin (num_holes : ℝ),
        EF.fin norm_perimeter,
        EF.fin norm_area]).map sanitize

/-! ## Offline path: `scripts/build_font_database.py`

The builder's own `extract_features` (lines 138–189) and the per-font
aggregation of its `main` loop (lines 206–224).  This path performs only
rational arithmetic (no square roots), so it is modelled over `ℚ` and is
fully executable. -/

/-- `cv2.boundingRect(contour)`: `(x, y, w, h)` with `x, y` the minimal
coordinates and `w, h` the extents plus one (integer point sets). -/
def boundingRect (ps : List (ℤ × ℤ)) : ℤ × ℤ × ℤ × ℤ :=
  match ps with
  | [] => (0, 0, 0, 0)
  | p :: rest =>
    let x0 := rest.foldl (fun m q => min m q.1) p.1
    let y0 := rest.foldl (fun m q => min m q.2) p.2
    let x1 := rest.foldl (fun m q => max m q.1) p.1
    let y1 := rest.foldl (fun m q => max m q.2) p.2
    (x0, y0, x1 - x0 + 1, y1 - y0 + 1)

/-- `glyph_img[y:y+h, x:x+w]`: NumPy slicing for the non-negative, in-range
bounds produced by `cv2.boundingRect` on a contour of the image (Python
slices clamp at the ends, as `drop`/`take` do). -/
def Raster.roi (r : Raster) (x y w h : ℤ) : Raster :=
  ⟨((r.rows.drop y.toNat).take h.toNat).map
    (fun row => (row.drop x.toNat).take w.toNat)⟩

/-- Polygon (Green's theorem) moment `m00` of `cv2.moments(contour)`:
the signed shoelace area. -/
def contourM00 (ps : List (ℤ × ℤ)) : ℚ := (shoelace ps : ℚ) / 2

/-- Polygon moment `m10` of `cv2.moments(contour)`. -/
def contourM10 (ps : List (ℤ × ℤ)) : ℚ :=
  (((closedEdges ps).map (fun e =>
    (e.1.1 + e.2.1) * (e.1.1 * e.2.2 - e.2.1 * e.1.2))).sum : ℤ) / 6

/-- Polygon moment `m01` of `cv2.moments(contour)`. -/
def contourM01 (ps : List (ℤ × ℤ)) : ℚ :=
  (((closedEdges ps).map (fun e =>
    (e.1.2 + e.2.2) * (e.1.1 * e.2.2 - e.2.1 * e.1.2))).sum : ℤ) / 6

/-- `extract_features` of `scripts/build_font_database.py` (lines 138–189),
the offline path used by the database builder.  Returns `none` where the
Python function returns `None`.  As in the online embedding, the
`cv2.findContours` result is an explicit input. -/
def build_extract_features (img : Raster) (forest : Forest) :
    Option (List ℚ) :=
  -- `if not contours or hierarchy is None: return None`
  if forest.isEmpty then none
  else
    -- `next(i for i, h in enumerate(hierarchy[0]) if h[3] == -1)`,
    -- `StopIteration` → `return None`
    match forest.enum.find? (fun p => p.2.parent = -1) with
    | none => none
    | some (outer_idx, outer) =>
      -- `x, y, w, h = cv2.boundingRect(outer_contour)`
      let b := boundingRect outer.points
      let x := b.1; let y := b.2.1; let w := b.2.2.1; let h := b.2.2.2
      -- `if h == 0 or w == 0: return None`
      if h = 0 ∨ w = 0 then none
      else
        -- `aspect_ratio = w / h`
        let aspect_ratio : ℚ := (w : ℚ) / (h : ℚ)
        -- `roi = glyph_img[y:y+h, x:x+w]`
        let roi := img.roi x y w h
        -- `pixel_density = np.sum(roi > 0) / roi.size`
        let pixel_density : ℚ := (roi.countNonZero : ℚ) / (roi.size : ℚ)
        -- `M = cv2.moments(outer_contour); if M["m00"] == 0: return None`
        let m00 := contourM00 outer.points
        if m00 = 0 then none
        else
          -- `cx = (M["m10"] / M["m00"] - x) / w`, likewise `cy`
          let cx : ℚ := (contourM10 outer.points / m00 - (x : ℚ)) / (w : ℚ)
          let cy : ℚ := (contourM01 outer.points / m00 - (y : ℚ)) / (h : ℚ)
          -- `num_holes = np.sum(hierarchy[0, :, 3] == outer_contour_idx)`
          let num_holes : ℕ := forest.countP (fun c => c.parent = (outer_idx : ℤ))
          some [aspect_ratio, pixel_density, cx, cy, (num_holes : ℚ)]

/-- `np.mean(np.array(vs), axis=0)` for a non-empty list of equal-length
vectors: the component-wise arithmetic mean. -/
def meanVectorQ (vs : List (List ℚ)) : List ℚ :=
  (List.range (vs.headD []).length).map
    (fun j => (vs.map (fun v => v.getD j 0)).sum / (vs.length : ℚ))

/-- The per-font part of `main` in `scripts/build_font_database.py`
(lines 207–224): collect the non-`None` per-character feature vectors and, if
any were retained, store their component-wise mean as the font's fingerprint;
a font with no retained sample is omitted (`none`). -/
def aggregate_font (samples : List (Option (List ℚ))) : Option (List ℚ) :=
  let char_features_list := samples.filterMap id
  if char_features_list.isEmpty then none
  else some (meanVectorQ char_features_list)

/-! ## Online matcher: `src/fontsnip/matching/font_matcher.py`

`FontMatcher._cosine_similarity` and `FontMatcher.find_best_matches`.
The loaded database `self.font_database` is modelled as
`Option (List (String × List ℝ))`: `none` for a failed load, and a key-value
list in dictionary insertion order (Python dicts iterate in insertion
order). -/

/-- `np.dot(vec1, vec2)` for 1-D arrays (defined on equal-length inputs;
the embedding truncates to the shorter vector). -/
def dot (v1 v2 : List ℝ) : ℝ := (List.zipWith (· * ·) v1 v2).sum

/-- Sum of squared components. -/
def sumSq (v : List ℝ) : ℝ := (v.map (fun x => x ^ 2)).sum

/-- `np.linalg.norm(vec)`: the Euclidean norm. -/
noncomputable def linalgNorm (v : List ℝ) : ℝ := Real.sqrt (sumSq v)

/-- `FontMatcher._cosine_similarity` (lines 75–98): returns `0.0` when either
norm is exactly zero, else the normalized dot product. -/
noncomputable def cosine_similarity (vec1 vec2 : List ℝ) : ℝ :=
  if linalgNorm vec1 = 0 ∨ linalgNorm vec2 = 0 then 0
  else dot vec1 vec2 / (linalgNorm vec1 * linalgNorm vec2)

/-- `np.mean(snip_feature_vectors, axis=0)` for a non-empty list of
equal-length vectors. -/
noncomputable def meanVectorR (vs : List (List ℝ)) : List ℝ :=
  (List.range (vs.headD []).length).map
    (fun j => (vs.map (fun v => v.getD j 0)).sum / (vs.length : ℝ))

/-- `scores.sort(key=lambda item: item[1], reverse=True)`: Python's sort is
stable, so a stable descending-by-score sort; insertion sort with the
relation `b.2 ≤ a.2` is exactly such a stable sort. -/
noncomputable def sortScores (scores : List (String × ℝ)) : List (String × ℝ) :=
  scores.insertionSort (fun a b => b.2 ≤ a.2)

/-- `FontMatcher.find_best_matches` (lines 100–156). `db` is the loaded
`self.font_database` (`none` if loading failed); `if not self.font_database`
is true for both `None` and the empty dict.  A ragged query list makes
`np.mean` raise, which the `except` clause turns into `[]`. -/
noncomputable def find_best_matches (db : Option (List (String × List ℝ)))
    (snip_feature_vectors : List (List ℝ)) (top_n : ℕ) : List (String × ℝ) :=
  match db with
  | none => []
  | some entries =>
    if entries.isEmpty then []
    else if snip_feature_vectors.isEmpty then []
    else if ¬ (snip_feature_vectors.all
        (fun v => v.length = (snip_feature_vectors.headD []).length)) then []
    else
      let target_vector := meanVectorR snip_feature_vectors
      -- per-entry defensive shape check, mismatching entries are skipped
      let scores := entries.filterMap (fun e =>
        if e.2.length = target_vector.length then
          some (e.1, cosine_similarity target_vector e.2)
        else none)
      if scores.isEmpty then []
      else (sortScores scores).take top_n

/-! ## Concrete fixtures -/

/-- A 50×50 all-background (all-zero) raster: the builder module's own
"Empty Image" test case (`np.zeros((50, 50), dtype=np.uint8)`). -/
def allBgRaster : Raster := ⟨List.replicate 50 (List.replicate 50 0)⟩

/-- A 5×5 ring-shaped raster (letter "o" topology): a one-pixel-wide square
ring of foreground with a single enclosed background hole at the center. -/
def ringRaster : Raster :=
  ⟨[[0, 0, 0, 0, 0],
    [0, 255, 255, 255, 0],
    [0, 255, 0, 255, 0],
    [0, 255, 255, 255, 0],
    [0, 0, 0, 0, 0]]⟩

/-- Modelled from the spec: the contour forest the Contour Hierarchy Tracer
(spec §4.1, realized in the repository by the external `cv2.findContours`
call, whose implementation is not part of the source tree) produces on
`ringRaster` — one root contour around the outer boundary of the ring and one
child contour around the enclosed hole, the child's parent being the root
(index `0`). -/
def ringForest : Forest :=
  [⟨[(1, 1), (2, 1), (3, 1), (3, 2), (3, 3), (2, 3), (1, 3), (1, 2)], -1⟩,
   ⟨[(2, 2)], 0⟩]

/-- The output of `extract_features` always has exactly
`FEATURE_VECTOR_SIZE = 7` components. -/
theorem extract_features_length (img? : Option Raster) (forest : Forest) :
    (extract_features img? forest).length = 7 := by
  rcases img? with _ | img
  · rfl
  · unfold extract_features
    by_cases h1 : img.size = 0
    · simp [h1, zeroVector, FEATURE_VECTOR_SIZE]
    · by_cases h2 : img.h = 0 ∨ img.w = 0 <;> simp [h1, h2, zeroVector, FEATURE_VECTOR_SIZE]

/-- The sanitization step always produces a finite component. -/
theorem sanitize_fin (x : EF) : ∃ r : ℝ, sanitize x = EF.fin r := by
  cases x <;> exact ⟨_, rfl⟩

/-- Claim C6: for every input raster (including a null image, an empty image,
and degenerate inputs) the feature computation returns a vector of exactly 7
values, each of which is a finite float — every component of the returned
vector is `EF.fin` of some real number, any non-finite component having been
coerced to 0 by the final sanitization step. -/
theorem C6_extract_features_returns_seven_finite_values
    (img? : Option Raster) (forest : Forest) :
    (extract_features img? forest).length = 7 ∧
      ∀ x ∈ extract_features img? forest, ∃ r : ℝ, x = EF.fin r := by
  refine ⟨extract_features_length _ _, fun x hx => ?_⟩
  have hzero : x ∈ zeroVector → ∃ r : ℝ, x = EF.fin r := fun hz =>
    ⟨0, List.eq_of_mem_replicate hz⟩
  rcases img? with _ | img
  · exact hzero hx
  · simp only [extract_features] at hx
    by_cases h1 : img.size = 0
    · rw [if_pos h1] at hx; exact hzero hx
    · rw [if_neg h1] at hx
      by_cases h2 : img.h = 0 ∨ img.w = 0
      · rw [if_pos h2] at hx; exact hzero hx
      · rw [if_neg h2] at hx
        obtain ⟨y, -, rfl⟩ := List.mem_map.1 hx
        obtain ⟨r, hr⟩ := sanitize_fin y
        exact ⟨r, hr⟩

/-- Witness for C6 at a concrete input: the null image with an empty forest
yields a 7-component vector whose first member is the finite value 0. -/
theorem C6_witness :
    (extract_features none []).length = 7 ∧ ∃ r : ℝ, EF.fin 0 = EF.fin r :=
  ⟨(C6_extract_features_returns_seven_finite_values none []).1,
    (C6_extract_features_returns_seven_finite_values none []).2 (EF.fin 0)
      (by simp [extract_features, zeroVector, FEATURE_VECTOR_SIZE])⟩

/-- Claim C5: for every raster that passes the shape guards and every contour
forest, the `hole_count` component (index 4) of the extracted feature vector
equals the number of contours in the forest whose parent is not `-1` — every
non-root contour counts, regardless of nesting depth. -/
theorem C5_hole_count_is_nonroot_contour_count (img : Raster) (forest : Forest)
    (h1 : img.size ≠ 0) (h2 : img.h ≠ 0) (h3 : img.w ≠ 0) :
    (extract_features (some img) forest).get? 4 =
      some (EF.fin ((forest.countP (fun c => c.parent ≠ -1) : ℕ) : ℝ)) := by
  unfold extract_features
  simp only [h1, h2, h3, or_self, if_false, ite_false]
  by_cases hf : forest.isEmpty
  · rw [List.isEmpty_iff] at hf
    subst hf
    simp [sanitize]
  · simp [hf, sanitize]

/-- Witness for C5 at a concrete ring-shaped raster: the ring (letter "o"
topology) has exactly one non-root contour, so its `hole_count` feature is 1. -/
theorem C5_hole_count_ring_witness :
    (extract_features (some ringRaster) ringForest).get? 4 =
      some (EF.fin 1) := by
  have h := C5_hole_count_is_nonroot_contour_count ringRaster ringForest
    (by decide) (by decide) (by decide)
  rw [h]
  have hc : ringForest.countP (fun c => c.parent ≠ -1) = 1 := by decide
  rw [hc]
  norm_num

/-- Concrete evaluation of the offline builder path on the ring fixture:
aspect ratio 1, pixel density 8/9, normalized centroid (1/3, 1/3), one hole —
a 5-component vector. -/
theorem build_ring_eval :
    build_extract_features ringRaster ringForest =
      some [1, 8 / 9, 1 / 3, 1 / 3, 1] := by
  norm_num [build_extract_features, ringRaster, ringForest, boundingRect,
    contourM00, contourM10, contourM01, shoelace, closedEdges, List.rotate,
    Raster.roi, Raster.countNonZero, Raster.size, List.find?, List.enum,
    List.countP, List.countP.go]
  norm_num [show Int.toNat 3 = 3 from rfl]

/-- Claim C1 (refuted, code bug): on one and the same glyph raster with one
and the same contour forest, the online path
(`feature_extractor.extract_features`) produces a 7-component vector while
the offline builder path (`build_font_database.extract_features`) produces a
5-component vector — the two feature-extraction paths are not the same
function, contradicting the builder's own docstring. -/
theorem C1_offline_online_paths_diverge :
    (extract_features (some ringRaster) ringForest).length = 7 ∧
    (build_extract_features ringRaster ringForest).map List.length = some 5 := by
  refine ⟨extract_features_length _ _, ?_⟩
  rw [build_ring_eval]
  rfl

/-- Claim C2 (divergence witness): a fingerprint stored by the database
builder — the component-wise mean of the retained per-character vectors of
its offline `extract_features` — has exactly 5 components, not
`FEATURE_VECTOR_SIZE = 7`. -/
theorem C2_builder_fingerprint_has_five_components :
    (aggregate_font [build_extract_features ringRaster ringForest]).map
      List.length = some 5 ∧ (5 : ℕ) ≠ FEATURE_VECTOR_SIZE := by
  rw [build_ring_eval]
  refine ⟨?_, by decide⟩
  simp [aggregate_font, meanVectorQ]

/-- Claim C3 (refuted, code bug): on a 50×50 all-background raster (the
feature extractor module's own "Empty Image" test input, whose contour forest
is empty since there is nothing to trace), the feature computation does NOT
return the all-zero sentinel vector: the first component is the aspect ratio
`w / h = 1.0`, so the module's own `np.all(features_empty == 0)` test
assertion fails. -/
theorem C3_allbackground_not_zero_sentinel :
    extract_features (some allBgRaster) [] =
      [EF.fin 1, EF.fin 0, EF.fin 0, EF.fin 0, EF.fin 0, EF.fin 0, EF.fin 0] ∧
    extract_features (some allBgRaster) [] ≠ zeroVector := by
  have hh : allBgRaster.h = 50 := by decide
  have hw : allBgRaster.w = 50 := by decide
  have hsize : allBgRaster.size = 2500 := by decide
  have hcnz : allBgRaster.countNonZero = 0 := by decide
  have hm00 : allBgRaster.m00 = 0 := by decide
  have heval : extract_features (some allBgRaster) [] =
      [EF.fin 1, EF.fin 0, EF.fin 0, EF.fin 0, EF.fin 0, EF.fin 0, EF.fin 0] := by
    simp only [extract_features]
    rw [if_neg (by rw [hsize]; norm_num), if_neg (by rw [hh, hw]; norm_num)]
    norm_num [hh, hw, hcnz, hm00, sanitize]
  refine ⟨heval, ?_⟩
  rw [heval]
  intro hEq
  rw [show zeroVector = EF.fin 0 :: List.replicate 6 (EF.fin 0) from rfl] at hEq
  have : (1 : ℝ) = 0 := by
    have h0 := List.head_eq_of_cons_eq hEq
    exact EF.fin.inj h0
  norm_num at this

/-! ## Matcher lemmas -/

theorem sumSq_nonneg (v : List ℝ) : 0 ≤ sumSq v := by
  unfold sumSq
  induction v with
  | nil => simp
  | cons a t ih => simp only [List.map_cons, List.sum_cons]; positivity

theorem linalgNorm_nonneg (v : List ℝ) : 0 ≤ linalgNorm v := Real.sqrt_nonneg _

theorem linalgNorm_eq_zero_iff (v : List ℝ) : linalgNorm v = 0 ↔ sumSq v = 0 := by
  unfold linalgNorm
  constructor
  · intro h
    have := Real.sqrt_eq_zero (sumSq_nonneg v) |>.1 h
    exact this
  · intro h; rw [h, Real.sqrt_zero]

/-- `dot` as a sum over an index range. -/
theorem dot_eq_sum_range : ∀ v1 v2 : List ℝ,
    dot v1 v2 = ∑ i in Finset.range (min v1.length v2.length),
      v1.getD i 0 * v2.getD i 0 := by
  intro v1
  induction v1 with
  | nil => intro v2; simp [dot]
  | cons a t ih =>
    intro v2
    cases v2 with
    | nil => simp [dot]
    | cons b t2 =>
      have hmin : min (a :: t).length ((b :: t2).length) = min t.length t2.length + 1 := by
        simp [Nat.succ_min_succ]
      rw [hmin, Finset.sum_range_succ']
      simp only [dot, List.zipWith_cons_cons, List.sum_cons]
      rw [← dot, ih t2]
      simp only [List.getD_cons_succ, List.getD_cons_zero]
      ring

/-- `sumSq` as a sum over an index range. -/
theorem sumSq_eq_sum_range : ∀ v : List ℝ,
    sumSq v = ∑ i in Finset.range v.length, v.getD i 0 ^ 2 := by
  intro v
  induction v with
  | nil => simp [sumSq]
  | cons a t ih =>
    simp only [sumSq, List.map_cons, List.sum_cons, List.length_cons,
      Finset.sum_range_succ']
    rw [← sumSq, ih]
    simp [List.getD]
    ring

/-- Cauchy–Schwarz for the embedded `dot` and `sumSq`. -/
theorem dot_sq_le (v1 v2 : List ℝ) : dot v1 v2 ^ 2 ≤ sumSq v1 * sumSq v2 := by
  rw [dot_eq_sum_range, sumSq_eq_sum_range, sumSq_eq_sum_range]
  set k := min v1.length v2.length with hk
  have h1 : ∑ i in Finset.range k, v1.getD i 0 ^ 2 ≤
      ∑ i in Finset.range v1.length, v1.getD i 0 ^ 2 :=
    Finset.sum_le_sum_of_subset_of_nonneg
      (Finset.range_subset.2 (Nat.min_le_left _ _))
      (fun i _ _ => sq_nonneg _)
  have h2 : ∑ i in Finset.range k, v2.getD i 0 ^ 2 ≤
      ∑ i in Finset.range v2.length, v2.getD i 0 ^ 2 :=
    Finset.sum_le_sum_of_subset_of_nonneg
      (Finset.range_subset.2 (Nat.min_le_right _ _))
      (fun i _ _ => sq_nonneg _)
  have hcs := Finset.sum_mul_sq_le_sq_mul_sq (Finset.range k)
    (fun i => v1.getD i 0) (fun i => v2.getD i 0)
  have hn1 : (0:ℝ) ≤ ∑ i in Finset.range k, v1.getD i 0 ^ 2 :=
    Finset.sum_nonneg fun i _ => sq_nonneg _
  have hn2 : (0:ℝ) ≤ ∑ i in Finset.range k, v2.getD i 0 ^ 2 :=
    Finset.sum_nonneg fun i _ => sq_nonneg _
  calc (∑ i in Finset.range k, v1.getD i 0 * v2.getD i 0) ^ 2
      ≤ (∑ i in Finset.range k, v1.getD i 0 ^ 2) *
          ∑ i in Finset.range k, v2.getD i 0 ^ 2 := hcs
    _ ≤ (∑ i in Finset.range v1.length, v1.getD i 0 ^ 2) *
          ∑ i in Finset.range v2.length, v2.getD i 0 ^ 2 := by
        apply mul_le_mul h1 h2 hn2
        exact le_trans hn1 h1

/-- Every cosine similarity score lies in `[-1, 1]`. -/
theorem cosine_similarity_bounds (v1 v2 : List ℝ) :
    -1 ≤ cosine_similarity v1 v2 ∧ cosine_similarity v1 v2 ≤ 1 := by
  unfold cosine_similarity
  split
  · norm_num
  · rename_i hcond
    push_neg at hcond
    obtain ⟨hne1, hne2⟩ := hcond
    have hp1 : 0 < linalgNorm v1 := lt_of_le_of_ne (linalgNorm_nonneg v1) (Ne.symm hne1)
    have hp2 : 0 < linalgNorm v2 := lt_of_le_of_ne (linalgNorm_nonneg v2) (Ne.symm hne2)
    have hpp : 0 < linalgNorm v1 * linalgNorm v2 := mul_pos hp1 hp2
    have hsq : (linalgNorm v1 * linalgNorm v2) ^ 2 = sumSq v1 * sumSq v2 := by
      rw [mul_pow]
      unfold linalgNorm
      rw [Real.sq_sqrt (sumSq_nonneg v1), Real.sq_sqrt (sumSq_nonneg v2)]
    have hd : dot v1 v2 ^ 2 ≤ (linalgNorm v1 * linalgNorm v2) ^ 2 := by
      rw [hsq]; exact dot_sq_le v1 v2
    constructor
    · rw [le_div_iff₀ hpp]
      nlinarith [hd, hpp]
    · rw [div_le_one hpp]
      nlinarith [hd, hpp]

theorem sumSq_replicate_zero (n : ℕ) : sumSq (List.replicate n (0:ℝ)) = 0 := by
  unfold sumSq
  induction n with
  | zero => simp
  | succ m ih =>
    simp only [List.replicate, List.map_cons, List.sum_cons]
    rw [show ((0:ℝ)^2 = 0) from by norm_num, zero_add]
    exact ih

theorem linalgNorm_replicate_zero (n : ℕ) :
    linalgNorm (List.replicate n (0:ℝ)) = 0 := by
  rw [linalgNorm_eq_zero_iff]; exact sumSq_replicate_zero n

/-- Against an all-zero target the similarity is defined to be exactly 0. -/
theorem cosine_similarity_zero_left (n : ℕ) (v : List ℝ) :
    cosine_similarity (List.replicate n 0) v = 0 := by
  unfold cosine_similarity
  rw [if_pos (Or.inl (linalgNorm_replicate_zero n))]

theorem getD_replicate_zero (n j : ℕ) : (List.replicate n (0:ℝ)).getD j 0 = 0 := by
  induction n generalizing j with
  | zero => cases j <;> simp [List.getD]
  | succ m ih => cases j <;> simp [List.getD, List.replicate]

/-- The averaged target of a non-empty query whose every vector is the
all-zero 7-component sentinel is the all-zero 7-component vector. -/
theorem meanVectorR_zeros (q : List (List ℝ)) (hq : q ≠ [])
    (hz : ∀ v ∈ q, v = List.replicate 7 0) :
    meanVectorR q = List.replicate 7 0 := by
  have hhead : q.headD [] = List.replicate 7 0 := by
    cases q with
    | nil => exact absurd rfl hq
    | cons a t => exact hz a (List.mem_cons_self a t)
  unfold meanVectorR
  rw [hhead]
  have hlen : (List.replicate 7 (0:ℝ)).length = 7 := by simp
  rw [hlen]
  have hmap : ∀ j : ℕ, (q.map (fun v => v.getD j 0)).sum = 0 := by
    intro j
    have : q.map (fun v => v.getD j 0) = q.map (fun _ => (0:ℝ)) := by
      apply List.map_congr_left
      intro v hv
      rw [hz v hv]
      exact getD_replicate_zero 7 j
    rw [this]
    simp
  have : (List.range 7).map
      (fun j => (q.map (fun v => v.getD j 0)).sum / (q.length : ℝ)) =
      (List.range 7).map (fun _ => (0:ℝ)) := by
    apply List.map_congr_left
    intro j _
    rw [hmap j, zero_div]
  rw [this]
  simp [List.map_const']

/-- Claim C7: `find_best_matches` with an empty query list returns the empty
result, and `find_best_matches` against an unloaded (`None`) or empty
database returns the empty result; all three are total computations (no
exception is modelled or needed). -/
theorem C7_empty_query_or_empty_db_yield_empty
    (db : Option (List (String × List ℝ))) (q : List (List ℝ)) (top_n : ℕ) :
    find_best_matches db [] top_n = [] ∧
    find_best_matches none q top_n = [] ∧
    find_best_matches (some []) q top_n = [] := by
  refine ⟨?_, rfl, rfl⟩
  rcases db with _ | entries
  · rfl
  · simp only [find_best_matches]
    by_cases he : entries.isEmpty <;> simp [he]

/-- Claim C8: the cosine similarity score is exactly 0 (never NaN or
undefined) whenever either vector's norm is exactly 0, and every score
returned by `find_best_matches` lies in the interval `[-1, 1]`. -/
theorem C8_zero_norm_gives_zero_and_scores_bounded :
    (∀ v1 v2 : List ℝ, linalgNorm v1 = 0 ∨ linalgNorm v2 = 0 →
      cosine_similarity v1 v2 = 0) ∧
    ∀ (db : Option (List (String × List ℝ))) (q : List (List ℝ)) (n : ℕ)
      (p : String × ℝ), p ∈ find_best_matches db q n →
      -1 ≤ p.2 ∧ p.2 ≤ 1 := by
  constructor
  · intro v1 v2 h
    unfold cosine_similarity
    rw [if_pos h]
  · intro db q n p hp
    rcases db with _ | entries
    · simp [find_best_matches] at hp
    · simp only [find_best_matches] at hp
      split at hp
      · exact absurd hp (List.not_mem_nil p)
      split at hp
      · exact absurd hp (List.not_mem_nil p)
      split at hp
      · exact absurd hp (List.not_mem_nil p)
      split at hp
      · exact absurd hp (List.not_mem_nil p)
      have h1 := List.mem_of_mem_take hp
      unfold sortScores at h1
      rw [List.mem_insertionSort] at h1
      obtain ⟨e, -, hfe⟩ := List.mem_filterMap.1 h1
      split at hfe
      · cases hfe
        exact cosine_similarity_bounds _ _
      · exact absurd hfe (by simp)

/-- Witness for C8: the similarity of the zero vector `[0]` against `[3]` is
exactly 0, and the single score returned by a concrete match lies in
`[-1, 1]`. -/
theorem C8_witness :
    cosine_similarity [(0:ℝ)] [(3:ℝ)] = 0 ∧ (-1 ≤ (0:ℝ) ∧ (0:ℝ) ≤ 1) := by
  constructor
  · exact C8_zero_norm_gives_zero_and_scores_bounded.1 [0] [3]
      (Or.inl (by rw [linalgNorm_eq_zero_iff]; simp [sumSq]))
  · refine C8_zero_norm_gives_zero_and_scores_bounded.2
      (some [("a", [0])]) [[0]] 1 ("a", 0) ?_
    have htarget : meanVectorR [[(0:ℝ)]] = [0] := by
      simp [meanVectorR, List.getD]
    have hcos : cosine_similarity [(0:ℝ)] [(0:ℝ)] = 0 := by
      unfold cosine_similarity
      rw [if_pos (Or.inl (by rw [linalgNorm_eq_zero_iff]; simp [sumSq]))]
    simp [find_best_matches, htarget, hcos, sortScores,
      List.insertionSort, List.orderedInsert]

/-- Claim C9: a database entry whose stored vector length differs from the
target vector's length is skipped individually — removing such an entry from
the database does not change the match result at all, so it contributes no
score, every remaining entry is still compared, and the match never aborts. -/
theorem C9_mismatched_entry_skipped (pre post : List (String × List ℝ))
    (e : String × List ℝ) (q : List (List ℝ)) (n : ℕ)
    (hmis : e.2.length ≠ (meanVectorR q).length) :
    find_best_matches (some (pre ++ e :: post)) q n =
      find_best_matches (some (pre ++ post)) q n := by
  simp only [find_best_matches]
  by_cases hpp : pre ++ post = []
  · obtain ⟨rfl, rfl⟩ := List.append_eq_nil.1 hpp
    simp [hmis, List.filterMap_cons]
  · have hsc : List.filterMap (fun e : String × List ℝ =>
        if e.2.length = (meanVectorR q).length then
          some (e.1, cosine_similarity (meanVectorR q) e.2) else none)
        (pre ++ e :: post) =
      List.filterMap (fun e : String × List ℝ =>
        if e.2.length = (meanVectorR q).length then
          some (e.1, cosine_similarity (meanVectorR q) e.2) else none)
        (pre ++ post) := by
      simp [List.filterMap_append, List.filterMap_cons, hmis]
    have h1 : (pre ++ e :: post).isEmpty = false := by simp
    have h2 : (pre ++ post).isEmpty = false := by simp [List.isEmpty_iff, hpp]
    rw [hsc, h1, h2]

/-- Witness for C9: a single stale 2-component entry against a 1-component
query is skipped, giving the same (empty) result as the database without
it. -/
theorem C9_witness :
    find_best_matches (some [("stale", [(1:ℝ), 2])]) [[(1:ℝ)]] 3 =
      find_best_matches (some []) [[(1:ℝ)]] 3 :=
  C9_mismatched_entry_skipped [] [] ("stale", [1, 2]) [[1]] 3
    (by simp [meanVectorR])

/-- On a target of norm 0, every shape-matching database entry receives the
score 0: the defensive filterMap over the database degenerates to a map. -/
theorem zero_target_scores (t : List ℝ) (ht : linalgNorm t = 0) :
    ∀ entries : List (String × List ℝ),
      (∀ p ∈ entries, p.2.length = t.length) →
      entries.filterMap (fun e => if e.2.length = t.length then
          some (e.1, cosine_similarity t e.2) else none) =
        entries.map (fun e => (e.1, (0:ℝ))) := by
  intro entries
  induction entries with
  | nil => intro _; rfl
  | cons a tl ih =>
    intro hd
    have hcos : cosine_similarity t a.2 = 0 := by
      unfold cosine_similarity; rw [if_pos (Or.inl ht)]
    rw [List.filterMap_cons, if_pos (hd a (List.mem_cons_self a tl)), hcos,
      List.map_cons]
    exact congrArg _ (ih fun p hp => hd p (List.mem_cons_of_mem a hp))

/-- Claim C10: with a non-empty query whose vectors are all the 7-component
zero sentinel (so the averaged target is the zero vector) and a non-empty
database whose entries all have the matching dimensionality 7, the match
returns `min top_n (number of entries)` pairs, each with score exactly 0 —
in particular it is not empty when `top_n ≥ 1`. -/
theorem C10_zero_sentinel_query_full_result
    (entries : List (String × List ℝ)) (q : List (List ℝ)) (n : ℕ)
    (hq : q ≠ []) (hz : ∀ v ∈ q, v = List.replicate 7 0)
    (he : entries ≠ []) (hd : ∀ p ∈ entries, p.2.length = 7) :
    (find_best_matches (some entries) q n).length = min n entries.length ∧
    ∀ p ∈ find_best_matches (some entries) q n, p.2 = 0 := by
  have htarget : meanVectorR q = List.replicate 7 0 := meanVectorR_zeros q hq hz
  have hqE : q.isEmpty = false := by simp [List.isEmpty_iff, hq]
  have heE : entries.isEmpty = false := by simp [List.isEmpty_iff, he]
  have hhead : q.headD [] = List.replicate 7 0 := by
    cases q with
    | nil => exact absurd rfl hq
    | cons a t => exact hz a (List.mem_cons_self a t)
  have hall : q.all (fun v => v.length = (q.headD []).length) = true := by
    rw [List.all_eq_true]
    intro v hv
    rw [hz v hv, hhead]
    simp
  have hscores : entries.filterMap (fun e =>
      if e.2.length = (meanVectorR q).length then
        some (e.1, cosine_similarity (meanVectorR q) e.2) else none) =
      entries.map (fun e => (e.1, (0:ℝ))) := by
    rw [htarget]
    exact zero_target_scores (List.replicate 7 0) (linalgNorm_replicate_zero 7)
      entries (by simpa using hd)
  have hsE : (entries.map (fun e => (e.1, (0:ℝ)))).isEmpty = false := by
    simp [List.isEmpty_iff, he]
  have key : find_best_matches (some entries) q n =
      (sortScores (entries.map (fun e => (e.1, (0:ℝ))))).take n := by
    simp only [find_best_matches, hqE, heE, hall, hscores, hsE]
    simp
  constructor
  · rw [key, List.length_take]
    unfold sortScores
    rw [List.length_insertionSort, List.length_map]
  · intro p hp
    rw [key] at hp
    have h1 := List.mem_of_mem_take hp
    unfold sortScores at h1
    rw [List.mem_insertionSort] at h1
    obtain ⟨e, -, rfl⟩ := List.mem_map.1 h1
    rfl

/-- Witness for C10: one all-zero query vector against a single 7-component
entry with `top_n = 3` yields exactly `min 3 1 = 1` pair whose score is 0. -/
theorem C10_witness :
    (find_best_matches (some [("a", List.replicate 7 (0:ℝ))])
      [List.replicate 7 (0:ℝ)] 3).length = min 3 1 ∧
    ∀ p ∈ find_best_matches (some [("a", List.replicate 7 (0:ℝ))])
      [List.replicate 7 (0:ℝ)] 3, p.2 = 0 := by
  have h := C10_zero_sentinel_query_full_result
    [("a", List.replicate 7 (0:ℝ))] [List.replicate 7 (0:ℝ)] 3
    (by simp) (by simp) (by simp) (by simp)
  simpa using h

/-- Claim C4 (refuted, code bug): at equal similarity scores the code's
`scores.sort(key=..., reverse=True)` is merely stable — it keeps dictionary
insertion order — and does not fall back to ascending font identifier: with
insertion order `"b"` before `"a"` and tied scores, the result lists `"b"`
first. -/
theorem C4_ties_keep_insertion_order :
    find_best_matches
      (some [("b", List.replicate 7 (0:ℝ)), ("a", List.replicate 7 (0:ℝ))])
      [List.replicate 7 (0:ℝ)] 3 = [("b", 0), ("a", 0)] := by
  have htarget : meanVectorR [List.replicate 7 (0:ℝ)] = List.replicate 7 0 :=
    meanVectorR_zeros _ (by simp) (by simp)
  have hscores := zero_target_scores (List.replicate 7 (0:ℝ))
    (linalgNorm_replicate_zero 7)
    [("b", List.replicate 7 (0:ℝ)), ("a", List.replicate 7 (0:ℝ))]
    (by simp)
  simp only [find_best_matches, htarget, hscores]
  norm_num [sortScores, List.insertionSort, List.orderedInsert]

end FontSnip
